import Mathlib

/-!
Verification of the cache-mapping and replacement engine of CacheViz
(`src/src/app.ts`).  The definitions below are a shallow embedding of the
state-relevant parts of the TypeScript source: the fixed configuration
constants, the cache-line array, the address-decomposition functions
(`getOffset`, `getIndex`, `getSet`, `getTag`), the mode-dependent search
(`searchCache`), victim selection (`findVictimLine`), the fill/update path
(`updateCacheLine`, `processMemoryAccess`) and reset
(`initializeCache`, `resetSimulation`, `handleModeChange`).

JavaScript numbers are modelled as `Nat` (every address reaching the core in
the application is a non-negative integer parsed from 1-8 hex digits, and
`Math.floor(a / b)` / `a % b` on non-negative operands are `Nat` division and
remainder).  A separate `Int`-based model of the fully-associative access path
(suffix `I`) captures the code's behaviour on arbitrary, possibly negative,
addresses, where JavaScript `Math.floor` is `Int.fdiv` and `%` is `Int.tmod`.
Presentation-only state (DOM handles, animation flags, the random
`memory` contents, log entries) is out of the model, as are the
rendering-side callers.
-/

namespace CacheViz

/-- `const CACHE_SIZE = 8` (app.ts line 2). -/
def CACHE_SIZE : Nat := 8

/-- `const BLOCK_SIZE = 16` (app.ts line 3). -/
def BLOCK_SIZE : Nat := 16

/-- `const ASSOCIATIVITY = 2` (app.ts line 6), for the set-associative mode. -/
def ASSOCIATIVITY : Nat := 2

/-- `const numSets = CACHE_SIZE / ASSOCIATIVITY` as computed in
`initializeCache`, `getSet` and `getTag`. -/
def numSets : Nat := CACHE_SIZE / ASSOCIATIVITY

/-- The `CacheLine` interface of app.ts: `valid`, `tag : number | null`,
`data : string | null`, `lastAccess : number | null`. -/
structure CacheLine where
  valid : Bool
  tag : Option Nat
  data : Option String
  lastAccess : Option Nat
deriving DecidableEq, Repr

/-- The three cache organisations of the `mode` field:
`"direct" | "set-associative" | "fully-associative"`. -/
inductive Mode where
  | direct
  | setAssociative
  | fullyAssociative
deriving DecidableEq, Repr

/-- The state-relevant fields of the global `AppState` object: the cache-line
array, hit/miss statistics, the global round-robin counter `nextReplacement`,
the step counter, the mode, and the per-set round-robin counters.  The
presentation-only fields (`memory`, `isAnimating`) are omitted. -/
structure AppState where
  cache : List CacheLine
  hits : Nat
  misses : Nat
  nextReplacement : Nat
  step : Nat
  mode : Mode
  setReplacementCounters : List Nat
deriving DecidableEq, Repr

/-- The memory operations accepted by `processMemoryAccess` (parsed from
`LOAD`/`STORE` commands). -/
inductive Op where
  | LOAD
  | STORE
deriving DecidableEq, Repr

/-- What one processed access reports to the caller: the outcome, the affected
line index (hit line, or victim line on a miss), and the tag that was evicted
(`replacedTag` in `processMemoryAccess`, `none` when the victim was invalid). -/
structure AccessResult where
  isHit : Bool
  lineIndex : Nat
  replacedTag : Option Nat
deriving DecidableEq, Repr

/-- An invalid/empty cache line, as pushed by `initializeCache`. -/
def emptyCacheLine : CacheLine :=
  { valid := false, tag := none, data := none, lastAccess := none }

/-- Reading `state.cache[i]`.  In every state the program reaches, `i` is in
range; the default keeps the function total. -/
def lineAt (cache : List CacheLine) (i : Nat) : CacheLine :=
  cache.getD i emptyCacheLine

/-- `getOffset` (app.ts lines 189-191): `address % BLOCK_SIZE`. -/
def getOffset (address : Nat) : Nat :=
  address % BLOCK_SIZE

/-- `getIndex` (app.ts lines 193-195):
`Math.floor(address / BLOCK_SIZE) % CACHE_SIZE`. -/
def getIndex (address : Nat) : Nat :=
  (address / BLOCK_SIZE) % CACHE_SIZE

/-- `getSet` (app.ts lines 197-200):
`Math.floor(address / BLOCK_SIZE) % numSets`. -/
def getSet (address : Nat) : Nat :=
  (address / BLOCK_SIZE) % numSets

/-- `getTag` (app.ts lines 202-212), branching on the mode. -/
def getTag (mode : Mode) (address : Nat) : Nat :=
  let blockNumber := address / BLOCK_SIZE
  match mode with
  | Mode.direct => blockNumber / CACHE_SIZE
  | Mode.setAssociative => blockNumber / numSets
  | Mode.fullyAssociative => blockNumber

/-- The test `line.valid && line.tag === tag` used by `searchCache`
(a `null` tag never equals a number). -/
def matchesTag (line : CacheLine) (tag : Nat) : Bool :=
  line.valid && (line.tag == some tag)

/-- `searchCache` (app.ts lines 219-234).  The set-associative `for` loop over
the `ASSOCIATIVITY = 2` lines of the set is unrolled; the fully-associative
branch is `state.cache.findIndex(...)`, with `-1` modelled as `none`. -/
def searchCache (s : AppState) (tag : Nat) (address : Nat) : Option Nat :=
  match s.mode with
  | Mode.direct =>
    let index := getIndex address
    if matchesTag (lineAt s.cache index) tag then some index else none
  | Mode.setAssociative =>
    let startIdx := getSet address * ASSOCIATIVITY
    if matchesTag (lineAt s.cache startIdx) tag then some startIdx
    else if matchesTag (lineAt s.cache (startIdx + 1)) tag then some (startIdx + 1)
    else none
  | Mode.fullyAssociative =>
    s.cache.findIdx? (fun line => matchesTag line tag)

/-- `findVictimLine` (app.ts lines 236-254).  It returns the victim index and
the updated state, because the round-robin counters are advanced in place.
The set-associative scan over the two lines of the set is unrolled. -/
def findVictimLine (s : AppState) (address : Nat) : Nat × AppState :=
  match s.mode with
  | Mode.direct => (getIndex address, s)
  | Mode.setAssociative =>
    let setNum := getSet address
    let startIdx := setNum * ASSOCIATIVITY
    if !(lineAt s.cache startIdx).valid then (startIdx, s)
    else if !(lineAt s.cache (startIdx + 1)).valid then (startIdx + 1, s)
    else
      let c := s.setReplacementCounters.getD setNum 0
      (startIdx + c,
       { s with setReplacementCounters :=
           s.setReplacementCounters.set setNum ((c + 1) % ASSOCIATIVITY) })
  | Mode.fullyAssociative =>
    match s.cache.findIdx? (fun line => !line.valid) with
    | some emptyIdx => (emptyIdx, s)
    | none =>
      (s.nextReplacement,
       { s with nextReplacement := (s.nextReplacement + 1) % CACHE_SIZE })

/-- Upper-case hexadecimal rendering of a number,
`n.toString(16).toUpperCase()`. -/
def hexUpper (n : Nat) : String :=
  String.mk ((Nat.toDigits 16 n).map Char.toUpper)

/-- `updateCacheLine` (app.ts lines 256-264): overwrite the line with a valid
entry carrying the new tag, the payload, and the current step. -/
def updateCacheLine (s : AppState) (lineIndex : Nat) (tag : Nat) (data : String) :
    AppState :=
  let line : CacheLine :=
    { valid := true, tag := some tag, data := some data, lastAccess := some s.step }
  { s with cache := s.cache.set lineIndex line }

/-- The state-relevant part of `processMemoryAccess` (app.ts lines 660-694):
increment the step, compute the tag, search; on a hit bump `hits`, stamp
`lastAccess`, and on `STORE` overwrite `data`; on a miss bump `misses`, pick
the victim (possibly advancing a round-robin counter) and fill it via
`updateCacheLine`.  The `replacedTag` report is read off the victim line
before the fill. -/
def processMemoryAccess (s : AppState) (operation : Op) (address : Nat) :
    AccessResult × AppState :=
  let s1 := { s with step := s.step + 1 }
  let tag := getTag s1.mode address
  match searchCache s1 tag address with
  | some lineIndex =>
    let line := lineAt s1.cache lineIndex
    let line :=
      { line with
        lastAccess := some s1.step,
        data := if operation = Op.STORE
                then some ("Write@0x" ++ hexUpper address)
                else line.data }
    ({ isHit := true, lineIndex := lineIndex, replacedTag := none },
     { s1 with hits := s1.hits + 1, cache := s1.cache.set lineIndex line })
  | none =>
    let s2 := { s1 with misses := s1.misses + 1 }
    let fv := findVictimLine s2 address
    let victimLine := fv.1
    let s3 := fv.2
    let replacedTag :=
      if (lineAt s3.cache victimLine).valid then (lineAt s3.cache victimLine).tag
      else none
    ({ isHit := false, lineIndex := victimLine, replacedTag := replacedTag },
     updateCacheLine s3 victimLine tag ("Block@0x" ++ hexUpper address))

/-- `initializeCache` (app.ts lines 169-183): fresh invalid lines and zeroed
per-set counters. -/
def initializeCache (s : AppState) : AppState :=
  { s with
    cache := List.replicate CACHE_SIZE emptyCacheLine,
    setReplacementCounters := List.replicate numSets 0 }

/-- `resetSimulation` (app.ts lines 778-803): zero the statistics, the global
round-robin counter and the step counter, then `initializeCache`. -/
def resetSimulation (s : AppState) : AppState :=
  initializeCache { s with hits := 0, misses := 0, nextReplacement := 0, step := 0 }

/-- `handleModeChange` (app.ts lines 805-820): install the new mode, then
`resetSimulation`. -/
def handleModeChange (s : AppState) (newMode : Mode) : AppState :=
  resetSimulation { s with mode := newMode }

/-- The freshly configured state for a mode, as built on startup
(zeroed global state, then `initializeCache`). -/
def initialState (mode : Mode) : AppState :=
  initializeCache
    { cache := [], hits := 0, misses := 0, nextReplacement := 0, step := 0,
      mode := mode, setReplacementCounters := [] }

/-- Run a sequence of accesses in order, threading the state and collecting
each access's report (the hit/miss trace). -/
def runAccesses : AppState → List (Op × Nat) → List AccessResult × AppState
  | s, [] => ([], s)
  | s, (op, a) :: rest =>
    let r := processMemoryAccess s op a
    let t := runAccesses r.2 rest
    (r.1 :: t.1, t.2)

/-- The search scope of an address under a mode, as the spec describes it: the
single indexed line in direct mode, the `ASSOCIATIVITY` lines of the computed
set in set-associative mode, the whole array in fully-associative mode.  Used
to state claims about `searchCache` and `findVictimLine`; always listed in
ascending index order. -/
def searchScope (mode : Mode) (address : Nat) : List Nat :=
  match mode with
  | Mode.direct => [getIndex address]
  | Mode.setAssociative =>
    [getSet address * ASSOCIATIVITY, getSet address * ASSOCIATIVITY + 1]
  | Mode.fullyAssociative => List.range CACHE_SIZE

/-- Whether two line indices belong to one search scope: in direct mode each
line is a scope of its own, in set-associative mode a scope is a set of
`ASSOCIATIVITY` consecutive lines, in fully-associative mode the whole array
is one scope. -/
def sameScope (mode : Mode) (i j : Nat) : Bool :=
  match mode with
  | Mode.direct => i == j
  | Mode.setAssociative => i / ASSOCIATIVITY == j / ASSOCIATIVITY
  | Mode.fullyAssociative => true

/-- No two distinct valid lines of one search scope of the cache array `c`
hold the same tag, under mode `md`. -/
def NoDupTagsOn (md : Mode) (c : List CacheLine) : Prop :=
  ∀ i j, i < CACHE_SIZE → j < CACHE_SIZE → i ≠ j → sameScope md i j = true →
    (lineAt c i).valid = true → (lineAt c j).valid = true →
    (lineAt c i).tag ≠ (lineAt c j).tag

/-- No two distinct valid lines of one search scope hold the same tag. -/
def NoDupTags (s : AppState) : Prop :=
  NoDupTagsOn s.mode s.cache

/-- The states reachable from a freshly configured cache by a sequence of
accesses in the fixed mode chosen at configuration time. -/
inductive Reachable : AppState → Prop where
  | init (m : Mode) : Reachable (initialState m)
  | step (s : AppState) (op : Op) (a : Nat) :
      Reachable s → Reachable (processMemoryAccess s op a).2

/-- The structural invariant the accesses maintain: the array length and the
counter list length never change, every per-set counter stays below the
associativity, the global counter stays below the cache size, and no search
scope holds duplicate tags. -/
def Inv (s : AppState) : Prop :=
  s.cache.length = CACHE_SIZE ∧
  s.setReplacementCounters.length = numSets ∧
  (∀ k, s.setReplacementCounters.getD k 0 < ASSOCIATIVITY) ∧
  s.nextReplacement < CACHE_SIZE ∧
  NoDupTags s

/-! The `Int`-based model of the fully-associative access path.  The
TypeScript functions place no guard on the sign of `address`; on an arbitrary
integer, `Math.floor(address / BLOCK_SIZE)` is `Int.fdiv` and the
fully-associative branch of `getTag` returns that block number unchanged.
In this mode no cache array access uses an address-derived index, so the path
runs to completion on any integer input. -/

/-- `CacheLine` with an integer tag, for the `Int`-based model. -/
structure CacheLineI where
  valid : Bool
  tag : Option Int
  data : Option String
  lastAccess : Option Nat
deriving DecidableEq, Repr

/-- The state touched by the fully-associative path, for the `Int` model. -/
structure AppStateI where
  cache : List CacheLineI
  hits : Nat
  misses : Nat
  nextReplacement : Nat
  step : Nat
deriving DecidableEq, Repr

/-- An access report with an integer evicted tag, for the `Int` model. -/
structure AccessResultI where
  isHit : Bool
  lineIndex : Nat
  replacedTag : Option Int
deriving DecidableEq, Repr

/-- An invalid/empty line of the `Int` model. -/
def emptyCacheLineI : CacheLineI :=
  { valid := false, tag := none, data := none, lastAccess := none }

/-- Reading `state.cache[i]` in the `Int` model. -/
def lineAtI (cache : List CacheLineI) (i : Nat) : CacheLineI :=
  cache.getD i emptyCacheLineI

/-- `getTag` in fully-associative mode on an arbitrary integer address:
`Math.floor(address / BLOCK_SIZE)`. -/
def getTagFullyI (address : Int) : Int :=
  Int.fdiv address (BLOCK_SIZE : Int)

/-- `address.toString(16).toUpperCase()` for an arbitrary integer
(JavaScript renders a negative number with a leading minus sign). -/
def hexUpperI (a : Int) : String :=
  if a < 0 then "-" ++ hexUpper a.natAbs else hexUpper a.toNat

/-- `searchCache` in fully-associative mode, `Int` tags. -/
def searchCacheFullyI (s : AppStateI) (tag : Int) : Option Nat :=
  s.cache.findIdx? (fun line => line.valid && (line.tag == some tag))

/-- `findVictimLine` in fully-associative mode, `Int` model. -/
def findVictimLineFullyI (s : AppStateI) : Nat × AppStateI :=
  match s.cache.findIdx? (fun line => !line.valid) with
  | some emptyIdx => (emptyIdx, s)
  | none =>
    (s.nextReplacement,
     { s with nextReplacement := (s.nextReplacement + 1) % CACHE_SIZE })

/-- `updateCacheLine` of the `Int` model. -/
def updateCacheLineI (s : AppStateI) (lineIndex : Nat) (tag : Int) (data : String) :
    AppStateI :=
  let line : CacheLineI :=
    { valid := true, tag := some tag, data := some data, lastAccess := some s.step }
  { s with cache := s.cache.set lineIndex line }

/-- `processMemoryAccess` restricted to fully-associative mode, on an
arbitrary integer address.  The source has no branch that rejects an address:
the step counter is incremented and the access proceeds unconditionally. -/
def processMemoryAccessFullyI (s : AppStateI) (operation : Op) (address : Int) :
    AccessResultI × AppStateI :=
  let s1 := { s with step := s.step + 1 }
  let tag := getTagFullyI address
  match searchCacheFullyI s1 tag with
  | some lineIndex =>
    let line := lineAtI s1.cache lineIndex
    let line :=
      { line with
        lastAccess := some s1.step,
        data := if operation = Op.STORE
                then some ("Write@0x" ++ hexUpperI address)
                else line.data }
    ({ isHit := true, lineIndex := lineIndex, replacedTag := none },
     { s1 with hits := s1.hits + 1, cache := s1.cache.set lineIndex line })
  | none =>
    let s2 := { s1 with misses := s1.misses + 1 }
    let fv := findVictimLineFullyI s2
    let victimLine := fv.1
    let s3 := fv.2
    let replacedTag :=
      if (lineAtI s3.cache victimLine).valid then (lineAtI s3.cache victimLine).tag
      else none
    ({ isHit := false, lineIndex := victimLine, replacedTag := replacedTag },
     updateCacheLineI s3 victimLine tag ("Block@0x" ++ hexUpperI address))

/-- The freshly configured state of the `Int` model. -/
def initialStateI : AppStateI :=
  { cache := List.replicate CACHE_SIZE emptyCacheLineI,
    hits := 0, misses := 0, nextReplacement := 0, step := 0 }

/-! Helper lemmas shared by the claim theorems. -/

theorem getD_set_self {α : Type} (l : List α) (i : Nat) (a d : α)
    (h : i < l.length) : (l.set i a).getD i d = a := by
  simp [List.getD_eq_getElem?_getD, List.getElem?_set_self', h,
    List.getElem?_eq_getElem]

theorem getD_set_ne {α : Type} (l : List α) (i j : Nat) (a d : α)
    (h : i ≠ j) : (l.set i a).getD j d = l.getD j d := by
  simp [List.getD_eq_getElem?_getD, List.getElem?_set_ne h]

theorem lineAt_set_self (c : List CacheLine) (i : Nat) (l : CacheLine)
    (h : i < c.length) : lineAt (c.set i l) i = l :=
  getD_set_self c i l emptyCacheLine h

theorem lineAt_set_ne (c : List CacheLine) (i j : Nat) (l : CacheLine)
    (h : i ≠ j) : lineAt (c.set i l) j = lineAt c j :=
  getD_set_ne c i j l emptyCacheLine h

theorem matchesTag_iff (l : CacheLine) (t : Nat) :
    matchesTag l t = true ↔ (l.valid = true ∧ l.tag = some t) := by
  simp [matchesTag]

theorem tag_ne_of_not_matches (l : CacheLine) (t : Nat)
    (h : ¬ matchesTag l t = true) (hv : l.valid = true) : l.tag ≠ some t := by
  intro htag
  exact h ((matchesTag_iff l t).mpr ⟨hv, htag⟩)

theorem lineAt_replicate (n i : Nat) :
    lineAt (List.replicate n emptyCacheLine) i = emptyCacheLine := by
  simp only [lineAt, List.getD_eq_getElem?_getD, List.getElem?_replicate]
  split <;> rfl

theorem getD_replicate_zero (n k : Nat) : (List.replicate n (0 : Nat)).getD k 0 = 0 := by
  simp only [List.getD_eq_getElem?_getD, List.getElem?_replicate]
  split <;> rfl

theorem findIdx?_eq_find?_range {α : Type} (p : α → Bool) (d : α) :
    ∀ l : List α,
      List.findIdx? p l = (List.range l.length).find? (fun i => p (l.getD i d))
  | [] => rfl
  | a :: t => by
    rw [List.findIdx?_cons, List.length_cons, List.range_succ_eq_map]
    by_cases hpa : p a
    · simp [List.find?_cons, hpa]
    · have hpa' : p a = false := by simpa using hpa
      rw [List.findIdx?_succ, findIdx?_eq_find?_range p d t]
      simp only [List.find?_cons, List.getD_cons_zero, hpa', cond_false, if_false,
        List.find?_map]
      have hq : ((fun i => p ((a :: t).getD i d)) ∘ Nat.succ)
          = fun i => p (t.getD i d) := by
        funext i
        simp [Function.comp, List.getD_cons_succ]
      rw [hq]
      rcases hfind : (List.range t.length).find? (fun i => p (t.getD i d)) with _ | v
      · rfl
      · rfl

theorem searchCache_congr (s s' : AppState) (tag address : Nat)
    (hc : s'.cache = s.cache) (hm : s'.mode = s.mode) :
    searchCache s' tag address = searchCache s tag address := by
  unfold searchCache
  rw [hc, hm]

/-- `findVictimLine` never touches the cache array, the mode, the step or the
statistics; only a replacement counter may move. -/
theorem findVictimLine_frame (s : AppState) (a : Nat) :
    (findVictimLine s a).2.cache = s.cache ∧
    (findVictimLine s a).2.mode = s.mode ∧
    (findVictimLine s a).2.step = s.step ∧
    (findVictimLine s a).2.hits = s.hits ∧
    (findVictimLine s a).2.misses = s.misses := by
  obtain ⟨c, hs, ms, nr, st, md, ctr⟩ := s
  cases md
  · exact ⟨rfl, rfl, rfl, rfl, rfl⟩
  · unfold findVictimLine
    dsimp only
    split
    · exact ⟨rfl, rfl, rfl, rfl, rfl⟩
    · split
      · exact ⟨rfl, rfl, rfl, rfl, rfl⟩
      · exact ⟨rfl, rfl, rfl, rfl, rfl⟩
  · unfold findVictimLine
    dsimp only
    split
    · exact ⟨rfl, rfl, rfl, rfl, rfl⟩
    · exact ⟨rfl, rfl, rfl, rfl, rfl⟩

theorem resetSimulation_eq_initialState (s : AppState) :
    resetSimulation s = initialState s.mode := rfl

/-- C1.  For every non-negative address, address decomposition follows the
spec table with `blockNumber = floor(address / blockSize)`: the offset is
`address mod blockSize` in every mode (it depends on neither the mode nor the
cache contents); in direct mode `index = blockNumber mod cacheSize` and
`tag = floor(blockNumber / cacheSize)`; in set-associative mode
`set = blockNumber mod numSets` and `tag = floor(blockNumber / numSets)` with
`numSets = cacheSize / associativity`; in fully-associative mode
`tag = blockNumber` (constants `cacheSize = 8`, `blockSize = 16`,
`associativity = 2`). -/
theorem address_decomposition_follows_spec_table (address : Nat) :
    getOffset address = address % BLOCK_SIZE ∧
    getIndex address = (address / BLOCK_SIZE) % CACHE_SIZE ∧
    getSet address = (address / BLOCK_SIZE) % (CACHE_SIZE / ASSOCIATIVITY) ∧
    getTag Mode.direct address = (address / BLOCK_SIZE) / CACHE_SIZE ∧
    getTag Mode.setAssociative address
      = (address / BLOCK_SIZE) / (CACHE_SIZE / ASSOCIATIVITY) ∧
    getTag Mode.fullyAssociative address = address / BLOCK_SIZE ∧
    CACHE_SIZE = 8 ∧ BLOCK_SIZE = 16 ∧ ASSOCIATIVITY = 2 :=
  ⟨rfl, rfl, rfl, rfl, rfl, rfl, rfl, rfl, rfl⟩

/-- C8.  After `resetSimulation` — which `handleModeChange` invokes on every
mode switch — every cache line is invalid/empty, every per-set replacement
counter is `0`, and the global round-robin counter is `0`; in particular,
after filling the cache under one mode and switching to another, every line
reports `valid = false`. -/
theorem reset_clears_all_state (s : AppState) (newMode : Mode) :
    (∀ i, (lineAt (resetSimulation s).cache i).valid = false) ∧
    (resetSimulation s).cache = List.replicate CACHE_SIZE emptyCacheLine ∧
    (∀ k, (resetSimulation s).setReplacementCounters.getD k 0 = 0) ∧
    (resetSimulation s).nextReplacement = 0 ∧
    (handleModeChange s newMode).mode = newMode ∧
    (∀ i, (lineAt (handleModeChange s newMode).cache i).valid = false) := by
  refine ⟨fun i => ?_, rfl, fun k => ?_, rfl, rfl, fun i => ?_⟩
  · rw [show (resetSimulation s).cache = List.replicate CACHE_SIZE emptyCacheLine
        from rfl, lineAt_replicate]
    rfl
  · exact getD_replicate_zero numSets k
  · rw [show (handleModeChange s newMode).cache
        = List.replicate CACHE_SIZE emptyCacheLine from rfl, lineAt_replicate]
    rfl

/-- C9.  `resetSimulation` followed by any access sequence `S` reproduces
exactly the hit/miss trace (outcome, affected line index and evicted tag per
access) that `S` produces from a freshly configured cache in the same mode. -/
theorem reset_then_replay_reproduces_trace (s : AppState) (ops : List (Op × Nat)) :
    (runAccesses (resetSimulation s) ops).1
      = (runAccesses (initialState s.mode) ops).1 := by
  rw [resetSimulation_eq_initialState]

/-- C2.  For every cache state, mode and address, `searchCache` returns
exactly the first index of the mode's search scope (taken in ascending index
order: the single indexed line in direct mode, the two lines of the computed
set in set-associative mode, all `cacheSize` lines in fully-associative mode)
whose line is valid and stores the searched tag; in particular it reports a
hit (`some`) iff such a line exists in the scope, and a miss (`none`)
otherwise. -/
theorem searchCache_first_match_in_scope (s : AppState) (tag address : Nat)
    (hlen : s.cache.length = CACHE_SIZE) :
    searchCache s tag address
      = (searchScope s.mode address).find?
          (fun i => matchesTag (lineAt s.cache i) tag) ∧
    ((searchCache s tag address).isSome
      ↔ ∃ i ∈ searchScope s.mode address,
          matchesTag (lineAt s.cache i) tag = true) := by
  have hfind : searchCache s tag address
      = (searchScope s.mode address).find?
          (fun i => matchesTag (lineAt s.cache i) tag) := by
    obtain ⟨c, hs, ms, nr, st, md, ctr⟩ := s
    simp only at hlen
    cases md
    · by_cases h : matchesTag (lineAt c (getIndex address)) tag = true <;>
        simp [searchCache, searchScope, List.find?_cons, h]
    · by_cases h0 : matchesTag (lineAt c (getSet address * ASSOCIATIVITY)) tag = true <;>
        by_cases h1 :
          matchesTag (lineAt c (getSet address * ASSOCIATIVITY + 1)) tag = true <;>
        simp [searchCache, searchScope, List.find?_cons, h0, h1]
    · show List.findIdx? (fun line => matchesTag line tag) c = _
      rw [show (searchScope Mode.fullyAssociative address) = List.range CACHE_SIZE
        from rfl, ← hlen,
        findIdx?_eq_find?_range (fun line => matchesTag line tag) emptyCacheLine c]
      rfl
  refine ⟨hfind, ?_⟩
  rw [hfind]
  exact List.find?_isSome

/-- C3.  In set-associative mode, on an access that misses, victim selection
returns the first invalid line of the target set in ascending index order when
one exists, leaving the state (in particular the set's replacement counter)
unchanged; when both lines of the set are valid it returns
`set.base + counter[set]` and advances `counter[set]` by exactly one modulo
the associativity, leaving every other set's counter unchanged and the cache
untouched. -/
theorem setAssociative_victim_selection (s : AppState) (address : Nat)
    (hmode : s.mode = Mode.setAssociative)
    (hmiss : searchCache s (getTag s.mode address) address = none)
    (hctr : s.setReplacementCounters.length = numSets) :
    ((searchScope Mode.setAssociative address).find?
        (fun i => !(lineAt s.cache i).valid) = none →
      (findVictimLine s address).1
          = getSet address * ASSOCIATIVITY
              + s.setReplacementCounters.getD (getSet address) 0 ∧
      (findVictimLine s address).2.setReplacementCounters.getD (getSet address) 0
          = (s.setReplacementCounters.getD (getSet address) 0 + 1) % ASSOCIATIVITY ∧
      (∀ k, k ≠ getSet address →
          (findVictimLine s address).2.setReplacementCounters.getD k 0
            = s.setReplacementCounters.getD k 0) ∧
      (findVictimLine s address).2.cache = s.cache) ∧
    (∀ i, (searchScope Mode.setAssociative address).find?
        (fun j => !(lineAt s.cache j).valid) = some i →
      findVictimLine s address = (i, s)) := by
  obtain ⟨c, hs, ms, nr, st, md, ctr⟩ := s
  cases md
  case direct => simp at hmode
  case fullyAssociative => simp at hmode
  case setAssociative =>
  clear hmode hmiss
  have hset : getSet address < numSets := Nat.mod_lt _ (by decide)
  have hsetlen : getSet address < ctr.length := by
    simpa only [hctr] using hset
  constructor
  · intro hnone
    have hall := List.find?_eq_none.mp hnone
    have hv0 : (lineAt c (getSet address * ASSOCIATIVITY)).valid = true := by
      have := hall (getSet address * ASSOCIATIVITY) (by simp [searchScope])
      simpa using this
    have hv1 : (lineAt c (getSet address * ASSOCIATIVITY + 1)).valid = true := by
      have := hall (getSet address * ASSOCIATIVITY + 1) (by simp [searchScope])
      simpa using this
    simp only [findVictimLine, hv0, hv1, Bool.not_true, if_false]
    refine ⟨rfl, ?_, ?_, rfl⟩
    · exact getD_set_self ctr (getSet address) _ 0 hsetlen
    · intro k hk
      exact getD_set_ne ctr (getSet address) k _ 0 (Ne.symm hk)
  · intro i hi
    by_cases hv0 : (lineAt c (getSet address * ASSOCIATIVITY)).valid = true
    · by_cases hv1 : (lineAt c (getSet address * ASSOCIATIVITY + 1)).valid = true
      · simp [searchScope, List.find?_cons, hv0, hv1] at hi
      · have hv1' : (lineAt c (getSet address * ASSOCIATIVITY + 1)).valid = false := by
          simpa using hv1
        simp only [searchScope, List.find?_cons, hv0, hv1', Bool.not_true,
          Bool.not_false, cond_false, cond_true, List.find?_nil,
          Option.some.injEq] at hi
        subst hi
        simp [findVictimLine, hv0, hv1']
    · have hv0' : (lineAt c (getSet address * ASSOCIATIVITY)).valid = false := by
        simpa using hv0
      simp only [searchScope, List.find?_cons, hv0', Bool.not_false, cond_true,
        Option.some.injEq] at hi
      subst hi
      simp [findVictimLine, hv0']

/-- C4.  In fully-associative mode, on an access that misses, victim selection
returns the first invalid line of an ascending scan of the whole array when
one exists, leaving the state (in particular the global round-robin counter)
unchanged; when all `cacheSize` lines are valid it returns the global
counter's current value and advances it by one modulo `cacheSize`.
Consequently, from a fresh cache (`cacheSize = 8`, `blockSize = 16`):
`LOAD 0x10` misses and fills line 0 with tag 1, a repeated `LOAD 0x10` hits
line 0, `STORE 0x20` misses (tag 2) and fills line 1; and after 8
distinct-block misses filling lines 0-7, a 9th distinct-block access misses,
evicts line 0, and the global counter becomes 1. -/
theorem fullyAssociative_victim_selection (s : AppState) (address : Nat)
    (hmode : s.mode = Mode.fullyAssociative)
    (hmiss : searchCache s (getTag s.mode address) address = none)
    (hlen : s.cache.length = CACHE_SIZE) :
    ((List.range CACHE_SIZE).find? (fun i => !(lineAt s.cache i).valid) = none →
      (findVictimLine s address).1 = s.nextReplacement ∧
      (findVictimLine s address).2.nextReplacement
          = (s.nextReplacement + 1) % CACHE_SIZE ∧
      (findVictimLine s address).2.cache = s.cache) ∧
    (∀ i, (List.range CACHE_SIZE).find? (fun j => !(lineAt s.cache j).valid)
        = some i →
      findVictimLine s address = (i, s)) ∧
    ((runAccesses (initialState Mode.fullyAssociative)
        [(Op.LOAD, 0x10), (Op.LOAD, 0x10), (Op.STORE, 0x20)]).1
      = [{ isHit := false, lineIndex := 0, replacedTag := none },
         { isHit := true, lineIndex := 0, replacedTag := none },
         { isHit := false, lineIndex := 1, replacedTag := none }] ∧
     (lineAt (runAccesses (initialState Mode.fullyAssociative)
        [(Op.LOAD, 0x10), (Op.LOAD, 0x10), (Op.STORE, 0x20)]).2.cache 0).tag
       = some 1 ∧
     (lineAt (runAccesses (initialState Mode.fullyAssociative)
        [(Op.LOAD, 0x10), (Op.LOAD, 0x10), (Op.STORE, 0x20)]).2.cache 1).tag
       = some 2 ∧
     (runAccesses (initialState Mode.fullyAssociative)
        [(Op.LOAD, 0x00), (Op.LOAD, 0x10), (Op.LOAD, 0x20), (Op.LOAD, 0x30),
         (Op.LOAD, 0x40), (Op.LOAD, 0x50), (Op.LOAD, 0x60), (Op.LOAD, 0x70),
         (Op.LOAD, 0x80)]).1
      = [{ isHit := false, lineIndex := 0, replacedTag := none },
         { isHit := false, lineIndex := 1, replacedTag := none },
         { isHit := false, lineIndex := 2, replacedTag := none },
         { isHit := false, lineIndex := 3, replacedTag := none },
         { isHit := false, lineIndex := 4, replacedTag := none },
         { isHit := false, lineIndex := 5, replacedTag := none },
         { isHit := false, lineIndex := 6, replacedTag := none },
         { isHit := false, lineIndex := 7, replacedTag := none },
         { isHit := false, lineIndex := 0, replacedTag := some 0 }] ∧
     (runAccesses (initialState Mode.fullyAssociative)
        [(Op.LOAD, 0x00), (Op.LOAD, 0x10), (Op.LOAD, 0x20), (Op.LOAD, 0x30),
         (Op.LOAD, 0x40), (Op.LOAD, 0x50), (Op.LOAD, 0x60), (Op.LOAD, 0x70),
         (Op.LOAD, 0x80)]).2.nextReplacement = 1) := by
  obtain ⟨c, hs, ms, nr, st, md, ctr⟩ := s
  cases md
  case direct => simp at hmode
  case setAssociative => simp at hmode
  case fullyAssociative =>
  clear hmode hmiss
  simp only at hlen
  have hrange : List.findIdx? (fun line => !line.valid) c
      = (List.range CACHE_SIZE).find?
          (fun i => !(lineAt ((⟨c, hs, ms, nr, st, Mode.fullyAssociative, ctr⟩ :
              AppState)).cache i).valid) := by
    rw [show ((⟨c, hs, ms, nr, st, Mode.fullyAssociative, ctr⟩ :
        AppState)).cache = c from rfl, ← hlen,
      findIdx?_eq_find?_range (fun line => !line.valid) emptyCacheLine c]
    rfl
  refine ⟨?_, ?_, by decide, by decide, by decide, by decide, by decide⟩
  · intro hnone
    have hidx : List.findIdx? (fun line => !line.valid) c = none :=
      hrange.trans hnone
    simp [findVictimLine, hidx]
  · intro i hi
    have hidx : List.findIdx? (fun line => !line.valid) c = some i :=
      hrange.trans hi
    simp only [findVictimLine, hidx]

/-- After any access in direct mode, the line at the address's index is valid
and stores the address's tag (the access either hit that line — whose tag it
was — or filled it as the victim). -/
theorem direct_access_fills_line (s : AppState) (op : Op) (a : Nat)
    (hmode : s.mode = Mode.direct) (hlen : s.cache.length = CACHE_SIZE) :
    (lineAt (processMemoryAccess s op a).2.cache (getIndex a)).valid = true ∧
    (lineAt (processMemoryAccess s op a).2.cache (getIndex a)).tag
      = some (getTag Mode.direct a) ∧
    (processMemoryAccess s op a).2.mode = Mode.direct ∧
    (processMemoryAccess s op a).2.cache.length = CACHE_SIZE := by
  obtain ⟨c, hs, ms, nr, st, md, ctr⟩ := s
  cases md
  case setAssociative => simp at hmode
  case fullyAssociative => simp at hmode
  case direct =>
  simp only at hlen
  have hidx : getIndex a < c.length := by
    rw [hlen]; exact Nat.mod_lt _ (by decide)
  by_cases hm : matchesTag (lineAt c (getIndex a)) (getTag Mode.direct a) = true
  · obtain ⟨hv, ht⟩ := (matchesTag_iff _ _).mp hm
    refine ⟨?_, ?_, ?_, ?_⟩
    · simp only [processMemoryAccess, searchCache, hm, if_true]
      rw [lineAt_set_self _ _ _ hidx]
      exact hv
    · simp only [processMemoryAccess, searchCache, hm, if_true]
      rw [lineAt_set_self _ _ _ hidx]
      exact ht
    · simp [processMemoryAccess, searchCache, hm]
    · simp only [processMemoryAccess, searchCache, hm, if_true, List.length_set]
      exact hlen
  · have hm' : matchesTag (lineAt c (getIndex a)) (getTag Mode.direct a) = false := by
      simpa using hm
    refine ⟨?_, ?_, ?_, ?_⟩
    · simp only [processMemoryAccess, searchCache, hm', Bool.false_eq_true,
        if_false, findVictimLine, updateCacheLine]
      rw [lineAt_set_self _ _ _ hidx]
    · simp only [processMemoryAccess, searchCache, hm', Bool.false_eq_true,
        if_false, findVictimLine, updateCacheLine]
      rw [lineAt_set_self _ _ _ hidx]
    · simp [processMemoryAccess, searchCache, hm', findVictimLine, updateCacheLine]
    · simp only [processMemoryAccess, searchCache, hm', Bool.false_eq_true,
        if_false, findVictimLine, updateCacheLine, List.length_set]
      exact hlen

/-- A direct-mode access whose indexed line does not match the address's tag
is a miss: it reports the indexed line as victim, reports that line's tag as
evicted when it was valid, and overwrites it with the new tag. -/
theorem processMemoryAccess_direct_miss (s : AppState) (op : Op) (a : Nat)
    (hmode : s.mode = Mode.direct) (hlen : s.cache.length = CACHE_SIZE)
    (hnm : matchesTag (lineAt s.cache (getIndex a)) (getTag Mode.direct a) = false) :
    (processMemoryAccess s op a).1.isHit = false ∧
    (processMemoryAccess s op a).1.lineIndex = getIndex a ∧
    (processMemoryAccess s op a).1.replacedTag
      = (if (lineAt s.cache (getIndex a)).valid
         then (lineAt s.cache (getIndex a)).tag else none) ∧
    (lineAt (processMemoryAccess s op a).2.cache (getIndex a)).tag
      = some (getTag Mode.direct a) := by
  obtain ⟨c, hs, ms, nr, st, md, ctr⟩ := s
  cases md
  case setAssociative => simp at hmode
  case fullyAssociative => simp at hmode
  case direct =>
  simp only at hlen hnm
  have hidx : getIndex a < c.length := by
    rw [hlen]; exact Nat.mod_lt _ (by decide)
  refine ⟨?_, ?_, ?_, ?_⟩
  · simp [processMemoryAccess, searchCache, hnm, findVictimLine, updateCacheLine]
  · simp [processMemoryAccess, searchCache, hnm, findVictimLine, updateCacheLine]
  · simp [processMemoryAccess, searchCache, hnm, findVictimLine, updateCacheLine]
  · simp only [processMemoryAccess, searchCache, hnm, Bool.false_eq_true,
      if_false, findVictimLine, updateCacheLine]
    rw [lineAt_set_self _ _ _ hidx]

/-- C5.  In direct-mapped mode the victim of a miss is always the single line
at the address's computed index, invalid or valid, and the state is left
untouched by victim selection; consequently, for any two addresses with the
same index but different tags, an access to the second directly after an
access to the first is always a miss that evicts the first address's tag and
installs the second's — regardless of recency (no LRU behaviour). -/
theorem directMapped_victim_is_indexed_line (s : AppState) (a1 a2 : Nat)
    (op1 op2 : Op)
    (hmode : s.mode = Mode.direct)
    (hlen : s.cache.length = CACHE_SIZE)
    (hidx : getIndex a1 = getIndex a2)
    (htag : getTag Mode.direct a1 ≠ getTag Mode.direct a2) :
    findVictimLine s a2 = (getIndex a2, s) ∧
    (processMemoryAccess (processMemoryAccess s op1 a1).2 op2 a2).1.isHit
      = false ∧
    (processMemoryAccess (processMemoryAccess s op1 a1).2 op2 a2).1.lineIndex
      = getIndex a2 ∧
    (processMemoryAccess (processMemoryAccess s op1 a1).2 op2 a2).1.replacedTag
      = some (getTag Mode.direct a1) ∧
    (lineAt (processMemoryAccess (processMemoryAccess s op1 a1).2 op2 a2).2.cache
        (getIndex a2)).tag = some (getTag Mode.direct a2) := by
  obtain ⟨hv, ht, hm1, hlen1⟩ := direct_access_fills_line s op1 a1 hmode hlen
  have hnm : matchesTag
      (lineAt (processMemoryAccess s op1 a1).2.cache (getIndex a2))
      (getTag Mode.direct a2) = false := by
    rw [← hidx]
    simp only [matchesTag, hv, ht, Bool.true_and]
    simpa using htag
  obtain ⟨hh, hl, hr, hfill⟩ :=
    processMemoryAccess_direct_miss (processMemoryAccess s op1 a1).2 op2 a2
      hm1 hlen1 hnm
  refine ⟨by simp [findVictimLine, hmode], hh, hl, ?_, hfill⟩
  rw [hr, ← hidx, if_pos hv, ht]

/-- In a state whose counters are in range, the victim index is always within
the array. -/
theorem findVictimLine_lt (s : AppState) (a : Nat)
    (hlen : s.cache.length = CACHE_SIZE)
    (hctr : ∀ k, s.setReplacementCounters.getD k 0 < ASSOCIATIVITY)
    (hnr : s.nextReplacement < CACHE_SIZE) :
    (findVictimLine s a).1 < CACHE_SIZE := by
  obtain ⟨c, hs, ms, nr, st, md, ctr⟩ := s
  simp only at hlen hctr hnr
  cases md
  · show getIndex a < CACHE_SIZE
    exact Nat.mod_lt _ (by decide)
  · have hset : getSet a < 4 := Nat.mod_lt _ (by decide)
    simp only [findVictimLine]
    split
    · show getSet a * 2 < 8
      omega
    · split
      · show getSet a * 2 + 1 < 8
        omega
      · have h1 : ctr.getD (getSet a) 0 < 2 := hctr (getSet a)
        show getSet a * 2 + ctr.getD (getSet a) 0 < 8
        omega
  · simp only [findVictimLine]
    split
    next i heq =>
      obtain ⟨hlt, -⟩ := List.findIdx?_eq_some_iff_getElem.mp heq
      show i < CACHE_SIZE
      rwa [hlen] at hlt
    next heq => exact hnr

/-- A hit index returned by `searchCache` is always within the array. -/
theorem searchCache_some_lt (s : AppState) (t a i : Nat)
    (hlen : s.cache.length = CACHE_SIZE)
    (h : searchCache s t a = some i) : i < CACHE_SIZE := by
  obtain ⟨c, hs, ms, nr, st, md, ctr⟩ := s
  simp only at hlen
  cases md
  · simp only [searchCache] at h
    split at h
    · cases h
      exact Nat.mod_lt _ (by decide)
    · cases h
  · have hset : getSet a < 4 := Nat.mod_lt _ (by decide)
    simp only [searchCache] at h
    split at h
    · cases h
      show getSet a * 2 < 8
      omega
    · split at h
      · cases h
        show getSet a * 2 + 1 < 8
        omega
      · cases h
  · simp only [searchCache] at h
    obtain ⟨hlt, -⟩ := List.findIdx?_eq_some_iff_getElem.mp h
    rwa [hlen] at hlt

/-- C6.  For every processed access: on a miss, the victim line becomes valid
with the newly computed tag, the operation's payload descriptor as data, and
the current step as `lastAccess`; on a hit with a `STORE`, only the hit
line's `data` and `lastAccess` change (its `valid` and `tag` are untouched,
and every other line is unchanged); on a hit with a `LOAD`, only the hit
line's `lastAccess` changes. -/
theorem fill_and_update_frame (s : AppState) (op : Op) (address : Nat)
    (hlen : s.cache.length = CACHE_SIZE)
    (hctr : ∀ k, s.setReplacementCounters.getD k 0 < ASSOCIATIVITY)
    (hnr : s.nextReplacement < CACHE_SIZE) :
    (searchCache s (getTag s.mode address) address = none →
      lineAt (processMemoryAccess s op address).2.cache
          (processMemoryAccess s op address).1.lineIndex
        = { valid := true,
            tag := some (getTag s.mode address),
            data := some ("Block@0x" ++ hexUpper address),
            lastAccess := some (s.step + 1) }) ∧
    (∀ i, searchCache s (getTag s.mode address) address = some i →
      (op = Op.STORE →
        lineAt (processMemoryAccess s op address).2.cache i
          = { lineAt s.cache i with
              data := some ("Write@0x" ++ hexUpper address),
              lastAccess := some (s.step + 1) }) ∧
      (op = Op.LOAD →
        lineAt (processMemoryAccess s op address).2.cache i
          = { lineAt s.cache i with lastAccess := some (s.step + 1) }) ∧
      (∀ j, j ≠ i →
        lineAt (processMemoryAccess s op address).2.cache j
          = lineAt s.cache j)) := by
  obtain ⟨c, hs, ms, nr, st, md, ctr⟩ := s
  simp only at hlen hctr hnr ⊢
  constructor
  · intro hmiss
    have hmiss1 : searchCache (⟨c, hs, ms, nr, st + 1, md, ctr⟩ : AppState)
        (getTag md address) address = none :=
      (searchCache_congr (⟨c, hs, ms, nr, st, md, ctr⟩ : AppState)
        (⟨c, hs, ms, nr, st + 1, md, ctr⟩ : AppState)
        (getTag md address) address rfl rfl).trans hmiss
    have hvlt : (findVictimLine
        (⟨c, hs, ms + 1, nr, st + 1, md, ctr⟩ : AppState) address).1
          < CACHE_SIZE :=
      findVictimLine_lt _ address hlen hctr hnr
    have hvframe := findVictimLine_frame
      (⟨c, hs, ms + 1, nr, st + 1, md, ctr⟩ : AppState) address
    simp only [processMemoryAccess, hmiss1, updateCacheLine]
    rw [lineAt_set_self]
    · rw [show (findVictimLine
          (⟨c, hs, ms + 1, nr, st + 1, md, ctr⟩ : AppState) address).2.step
            = st + 1 from hvframe.2.2.1]
    · rw [show (findVictimLine
          (⟨c, hs, ms + 1, nr, st + 1, md, ctr⟩ : AppState) address).2.cache
            = c from hvframe.1, hlen]
      exact hvlt
  · intro i hi
    have hi1 : searchCache (⟨c, hs, ms, nr, st + 1, md, ctr⟩ : AppState)
        (getTag md address) address = some i :=
      (searchCache_congr (⟨c, hs, ms, nr, st, md, ctr⟩ : AppState)
        (⟨c, hs, ms, nr, st + 1, md, ctr⟩ : AppState)
        (getTag md address) address rfl rfl).trans hi
    have hilt : i < c.length := by
      rw [hlen]
      exact searchCache_some_lt _ _ _ _ hlen hi
    refine ⟨?_, ?_, ?_⟩
    · intro hop
      subst hop
      simp only [processMemoryAccess, hi1]
      rw [lineAt_set_self _ _ _ hilt]
      rfl
    · intro hop
      subst hop
      simp only [processMemoryAccess, hi1]
      rw [lineAt_set_self _ _ _ hilt]
      rfl
    · intro j hj
      simp only [processMemoryAccess, hi1]
      rw [lineAt_set_ne _ _ _ _ (Ne.symm hj)]

theorem findVictimLineFullyI_frame (s : AppStateI) :
    (findVictimLineFullyI s).2.cache = s.cache ∧
    (findVictimLineFullyI s).2.step = s.step := by
  obtain ⟨c, hs, ms, nr, st⟩ := s
  unfold findVictimLineFullyI
  dsimp only
  split
  · exact ⟨rfl, rfl⟩
  · exact ⟨rfl, rfl⟩

theorem findVictimLineFullyI_lt (s : AppStateI)
    (hlen : s.cache.length = CACHE_SIZE)
    (hnr : s.nextReplacement < CACHE_SIZE) :
    (findVictimLineFullyI s).1 < CACHE_SIZE := by
  obtain ⟨c, hs, ms, nr, st⟩ := s
  simp only at hlen hnr
  simp only [findVictimLineFullyI]
  split
  next i heq =>
    obtain ⟨hlt, -⟩ := List.findIdx?_eq_some_iff_getElem.mp heq
    show i < CACHE_SIZE
    rwa [hlen] at hlt
  next heq => exact hnr

/-- C7 counterexample.  The claim says a negative address passed to an access
is rejected with an explicit error before any state mutation.  On the code,
the fully-associative access path processes the negative address `-16`
(`-0x10`) from a fresh cache without any rejection: the step counter
increments, the access is counted as a miss, and line 0 is filled with the
(negative) computed tag `-1` — the state mutates. -/
theorem negative_address_rejected_counterexample :
    (processMemoryAccessFullyI initialStateI Op.LOAD (-16)).2 ≠ initialStateI ∧
    (processMemoryAccessFullyI initialStateI Op.LOAD (-16)).2.step
      = initialStateI.step + 1 ∧
    (processMemoryAccessFullyI initialStateI Op.LOAD (-16)).1.isHit = false ∧
    (lineAtI (processMemoryAccessFullyI initialStateI Op.LOAD (-16)).2.cache 0).valid
      = true ∧
    (lineAtI (processMemoryAccessFullyI initialStateI Op.LOAD (-16)).2.cache 0).tag
      = some (-1) := by decide

/-- C7 (amended).  The core performs no address validation: in
fully-associative mode an access with an arbitrary integer address — negative
included — is processed as an ordinary access with no error path: the step
counter increments, and on a miss the victim line is filled as valid with the
computed (possibly negative) tag `Int.fdiv address blockSize`.  Rejection of
malformed addresses happens only in the command-parsing collaborator, which
never produces a negative address. -/
theorem negative_address_processed_without_rejection (s : AppStateI) (op : Op)
    (address : Int)
    (hlen : s.cache.length = CACHE_SIZE)
    (hnr : s.nextReplacement < CACHE_SIZE) :
    (processMemoryAccessFullyI s op address).2.step = s.step + 1 ∧
    ((processMemoryAccessFullyI s op address).1.isHit = false →
      (lineAtI (processMemoryAccessFullyI s op address).2.cache
          (processMemoryAccessFullyI s op address).1.lineIndex).valid = true ∧
      (lineAtI (processMemoryAccessFullyI s op address).2.cache
          (processMemoryAccessFullyI s op address).1.lineIndex).tag
        = some (Int.fdiv address (BLOCK_SIZE : Int))) := by
  obtain ⟨c, hs, ms, nr, st⟩ := s
  simp only at hlen hnr
  rcases hsearch : searchCacheFullyI (⟨c, hs, ms, nr, st + 1⟩ : AppStateI)
      (getTagFullyI address) with _ | i
  · have hvframe := findVictimLineFullyI_frame (⟨c, hs, ms + 1, nr, st + 1⟩ : AppStateI)
    have hvlt : (findVictimLineFullyI (⟨c, hs, ms + 1, nr, st + 1⟩ : AppStateI)).1
        < CACHE_SIZE :=
      findVictimLineFullyI_lt _ hlen hnr
    constructor
    · simp only [processMemoryAccessFullyI, hsearch, updateCacheLineI]
      exact hvframe.2
    · intro _
      simp only [processMemoryAccessFullyI, hsearch, updateCacheLineI, lineAtI]
      rw [getD_set_self]
      · exact ⟨rfl, rfl⟩
      · rw [hvframe.1]
        simpa [hlen] using hvlt
  · constructor
    · simp only [processMemoryAccessFullyI, hsearch]
    · intro hmiss
      simp only [processMemoryAccessFullyI, hsearch] at hmiss
      cases hmiss

theorem sameScope_comm (md : Mode) (i j : Nat) (h : sameScope md i j = true) :
    sameScope md j i = true := by
  cases md
  · simp [sameScope] at h ⊢
    omega
  · simp [sameScope] at h ⊢
    omega
  · simp [sameScope]

theorem NoDupTagsOn_congr (md : Mode) (c c' : List CacheLine)
    (h : ∀ k, (lineAt c' k).valid = (lineAt c k).valid
        ∧ (lineAt c' k).tag = (lineAt c k).tag)
    (hdup : NoDupTagsOn md c) : NoDupTagsOn md c' := by
  intro i j hi hj hne hscope hvi hvj
  rw [(h i).2, (h j).2]
  exact hdup i j hi hj hne hscope (by rw [← (h i).1]; exact hvi)
    (by rw [← (h j).1]; exact hvj)

/-- Filling line `v` with a tag that no valid line of `v`'s scope holds
preserves scope-uniqueness of tags. -/
theorem NoDupTagsOn_fill (md : Mode) (c : List CacheLine) (v t : Nat)
    (dd : Option String) (la : Option Nat)
    (hlen : c.length = CACHE_SIZE) (hv : v < CACHE_SIZE)
    (hnomatch : ∀ j, j < CACHE_SIZE → sameScope md v j = true →
        matchesTag (lineAt c j) t = false)
    (hdup : NoDupTagsOn md c) :
    NoDupTagsOn md
      (c.set v { valid := true, tag := some t, data := dd, lastAccess := la }) := by
  intro i j hi hj hne hscope hvi hvj
  have hvlen : v < c.length := by rw [hlen]; exact hv
  by_cases hiv : i = v
  · subst hiv
    rw [lineAt_set_self _ _ _ hvlen]
    rw [lineAt_set_ne _ _ _ _ hne]
    rw [lineAt_set_ne _ _ _ _ hne] at hvj
    have hne' := tag_ne_of_not_matches (lineAt c j) t
      (by simp [hnomatch j hj hscope]) hvj
    exact fun heq => hne' heq.symm
  · by_cases hjv : j = v
    · subst hjv
      rw [lineAt_set_self _ _ _ hvlen]
      rw [lineAt_set_ne _ _ _ _ (Ne.symm hiv)]
      rw [lineAt_set_ne _ _ _ _ (Ne.symm hiv)] at hvi
      have hsc : sameScope md j i = true := sameScope_comm md i j hscope
      exact tag_ne_of_not_matches (lineAt c i) t
        (by simp [hnomatch i hi hsc]) hvi
    · rw [lineAt_set_ne _ _ _ _ (Ne.symm hiv)]
      rw [lineAt_set_ne _ _ _ _ (Ne.symm hjv)]
      rw [lineAt_set_ne _ _ _ _ (Ne.symm hiv)] at hvi
      rw [lineAt_set_ne _ _ _ _ (Ne.symm hjv)] at hvj
      exact hdup i j hi hj hne hscope hvi hvj

theorem Inv_initialState (m : Mode) : Inv (initialState m) := by
  refine ⟨by simp [initialState, initializeCache],
    by simp [initialState, initializeCache],
    ?_, (by decide : (0 : Nat) < CACHE_SIZE), ?_⟩
  · intro k
    show (List.replicate numSets 0).getD k 0 < ASSOCIATIVITY
    rw [getD_replicate_zero]
    decide
  · intro i j hi hj hne hscope hvi hvj
    exfalso
    have h0 : (lineAt (List.replicate CACHE_SIZE emptyCacheLine) i).valid = true := hvi
    rw [lineAt_replicate] at h0
    cases h0

theorem Inv_step (s : AppState) (op : Op) (a : Nat) (hInv : Inv s) :
    Inv (processMemoryAccess s op a).2 := by
  obtain ⟨hlen, hctrlen, hctr, hnr, hdup⟩ := hInv
  obtain ⟨c, hs, ms, nr, st, md, ctr⟩ := s
  simp only at hlen hctrlen hctr hnr
  have hdup' : NoDupTagsOn md c := hdup
  rcases hsearch : searchCache (⟨c, hs, ms, nr, st + 1, md, ctr⟩ : AppState)
      (getTag md a) a with _ | i
  · -- miss
    simp only [processMemoryAccess, hsearch, updateCacheLine]
    cases md
    case direct =>
      simp only [findVictimLine]
      refine ⟨by simp [List.length_set, hlen], hctrlen, hctr, hnr, ?_⟩
      intro i j hi hj hne hscope hvi hvj
      simp [sameScope] at hscope
      exact absurd hscope hne
    case setAssociative =>
      have hga : getSet a < 4 := Nat.mod_lt _ (by decide)
      simp only [searchCache] at hsearch
      cases hb0 : matchesTag (lineAt c (getSet a * ASSOCIATIVITY))
          (getTag Mode.setAssociative a)
      case true => simp [hb0] at hsearch
      case false =>
      cases hb1 : matchesTag (lineAt c (getSet a * ASSOCIATIVITY + 1))
          (getTag Mode.setAssociative a)
      case true => simp [hb0, hb1] at hsearch
      case false =>
      have hnomatch : ∀ v, v = getSet a * 2 ∨ v = getSet a * 2 + 1 →
          ∀ j, j < CACHE_SIZE → sameScope Mode.setAssociative v j = true →
          matchesTag (lineAt c j) (getTag Mode.setAssociative a) = false := by
        intro v hvcase j hj hsc
        have hj8 : j < 8 := hj
        have hsc' : v / 2 = j / 2 := by
          simpa [sameScope, ASSOCIATIVITY] using hsc
        have hcase : j = getSet a * 2 ∨ j = getSet a * 2 + 1 := by
          rcases hvcase with rfl | rfl <;> omega
        rcases hcase with rfl | rfl
        · exact hb0
        · exact hb1
      simp only [findVictimLine]
      split
      next hinv0 =>
        refine ⟨by simp [List.length_set, hlen], hctrlen, hctr, hnr, ?_⟩
        exact NoDupTagsOn_fill Mode.setAssociative c _ _ _ _ hlen
          (by show getSet a * 2 < 8; omega)
          (hnomatch _ (Or.inl rfl)) hdup'
      next hinv0 =>
        split
        next hinv1 =>
          refine ⟨by simp [List.length_set, hlen], hctrlen, hctr, hnr, ?_⟩
          exact NoDupTagsOn_fill Mode.setAssociative c _ _ _ _ hlen
            (by show getSet a * 2 + 1 < 8; omega)
            (hnomatch _ (Or.inr rfl)) hdup'
        next hinv1 =>
          have hc0 : ctr.getD (getSet a) 0 < 2 := hctr (getSet a)
          have hgalen : getSet a < ctr.length := by
            rw [hctrlen]; exact hga
          refine ⟨by simp [List.length_set, hlen],
            by simp [List.length_set, hctrlen], ?_, hnr, ?_⟩
          · intro k
            by_cases hk : getSet a = k
            · subst hk
              show (ctr.set (getSet a) _).getD (getSet a) 0 < ASSOCIATIVITY
              rw [getD_set_self _ _ _ _ hgalen]
              exact Nat.mod_lt _ (by decide)
            · show (ctr.set (getSet a) _).getD k 0 < ASSOCIATIVITY
              rw [getD_set_ne _ _ _ _ _ hk]
              exact hctr k
          · refine NoDupTagsOn_fill Mode.setAssociative c _ _ _ _ hlen ?_ ?_ hdup'
            · show getSet a * 2 + ctr.getD (getSet a) 0 < 8
              omega
            · have : getSet a * 2 + ctr.getD (getSet a) 0 = getSet a * 2
                  ∨ getSet a * 2 + ctr.getD (getSet a) 0 = getSet a * 2 + 1 := by
                omega
              exact hnomatch _ this
    case fullyAssociative =>
      simp only [searchCache] at hsearch
      have hnomatchall : ∀ j, j < CACHE_SIZE →
          matchesTag (lineAt c j) (getTag Mode.fullyAssociative a) = false := by
        intro j hj
        have hj' : j < c.length := by rw [hlen]; exact hj
        have hmem : lineAt c j ∈ c := by
          have hgd : lineAt c j = c.get ⟨j, hj'⟩ := by
            simp [lineAt, List.getD_eq_getElem?_getD, List.getElem?_eq_getElem hj']
          rw [hgd]
          exact List.get_mem c j hj'
        exact List.findIdx?_eq_none_iff.mp hsearch _ hmem
      simp only [findVictimLine]
      split
      next e heq =>
        have helt : e < CACHE_SIZE := by
          obtain ⟨hlt, -⟩ := List.findIdx?_eq_some_iff_getElem.mp heq
          rwa [hlen] at hlt
        refine ⟨by simp [List.length_set, hlen], hctrlen, hctr, hnr, ?_⟩
        exact NoDupTagsOn_fill Mode.fullyAssociative c e _ _ _ hlen helt
          (fun j hj _ => hnomatchall j hj) hdup'
      next heq =>
        refine ⟨by simp [List.length_set, hlen], hctrlen, hctr,
          Nat.mod_lt _ (by decide), ?_⟩
        exact NoDupTagsOn_fill Mode.fullyAssociative c nr _ _ _ hlen hnr
          (fun j hj _ => hnomatchall j hj) hdup'
  · -- hit
    have hilt : i < CACHE_SIZE :=
      searchCache_some_lt (⟨c, hs, ms, nr, st + 1, md, ctr⟩ : AppState)
        (getTag md a) a i hlen hsearch
    simp only [processMemoryAccess, hsearch]
    refine ⟨by simp [List.length_set, hlen], hctrlen, hctr, hnr, ?_⟩
    refine NoDupTagsOn_congr md c _ ?_ hdup'
    intro k
    by_cases hk : i = k
    · subst hk
      rw [lineAt_set_self _ _ _ (by rw [hlen]; exact hilt)]
      exact ⟨rfl, rfl⟩
    · rw [lineAt_set_ne _ _ _ _ hk]
      exact ⟨rfl, rfl⟩

/-- C10.  In every state reachable from a freshly initialized cache by any
sequence of accesses in a fixed mode, no two distinct valid lines within the
same search scope (the single indexed line in direct mode, one set's lines in
set-associative mode, the entire array in fully-associative mode) hold the
same tag: duplicate tags within a search scope never occur. -/
theorem no_duplicate_tags_within_scope (s : AppState) (h : Reachable s) :
    NoDupTags s := by
  have hInv : Inv s := by
    induction h with
    | init m => exact Inv_initialState m
    | step s' op a hr ih => exact Inv_step s' op a ih
  exact hInv.2.2.2.2

/-- Witness for C2: on a fresh fully-associative cache, searching tag 1 for
address `0x10` follows the scope scan. -/
theorem searchCache_first_match_in_scope_witness :
    (initialState Mode.fullyAssociative).cache.length = CACHE_SIZE ∧
    searchCache (initialState Mode.fullyAssociative) 1 16
      = (searchScope (initialState Mode.fullyAssociative).mode 16).find?
          (fun i => matchesTag (lineAt (initialState Mode.fullyAssociative).cache i) 1) :=
  ⟨by decide,
   (searchCache_first_match_in_scope (initialState Mode.fullyAssociative) 1 16
     (by decide)).1⟩

/-- Witness for C3: after filling set 0 with tags 0 and 1, a third
distinct-tag access (`0x80`) selects the member pointed to by set 0's
round-robin counter. -/
theorem setAssociative_victim_selection_witness :
    (runAccesses (initialState Mode.setAssociative)
        [(Op.LOAD, 0x00), (Op.LOAD, 0x40)]).2.mode = Mode.setAssociative ∧
    searchCache (runAccesses (initialState Mode.setAssociative)
        [(Op.LOAD, 0x00), (Op.LOAD, 0x40)]).2
      (getTag (runAccesses (initialState Mode.setAssociative)
        [(Op.LOAD, 0x00), (Op.LOAD, 0x40)]).2.mode 0x80) 0x80 = none ∧
    (findVictimLine (runAccesses (initialState Mode.setAssociative)
        [(Op.LOAD, 0x00), (Op.LOAD, 0x40)]).2 0x80).1
      = getSet 0x80 * ASSOCIATIVITY
        + (runAccesses (initialState Mode.setAssociative)
            [(Op.LOAD, 0x00), (Op.LOAD, 0x40)]).2.setReplacementCounters.getD
              (getSet 0x80) 0 :=
  ⟨by decide, by decide,
   ((setAssociative_victim_selection
      (runAccesses (initialState Mode.setAssociative)
        [(Op.LOAD, 0x00), (Op.LOAD, 0x40)]).2 0x80
      (by decide) (by decide) (by decide)).1 (by decide)).1⟩

/-- Witness for C4: with line 1 still invalid after one fill, the next miss
takes the first invalid line of the ascending scan. -/
theorem fullyAssociative_victim_selection_witness :
    (runAccesses (initialState Mode.fullyAssociative)
        [(Op.LOAD, 0x10)]).2.mode = Mode.fullyAssociative ∧
    searchCache (runAccesses (initialState Mode.fullyAssociative)
        [(Op.LOAD, 0x10)]).2
      (getTag (runAccesses (initialState Mode.fullyAssociative)
        [(Op.LOAD, 0x10)]).2.mode 0x20) 0x20 = none ∧
    findVictimLine (runAccesses (initialState Mode.fullyAssociative)
        [(Op.LOAD, 0x10)]).2 0x20
      = (1, (runAccesses (initialState Mode.fullyAssociative)
          [(Op.LOAD, 0x10)]).2) :=
  ⟨by decide, by decide,
   (fullyAssociative_victim_selection
      (runAccesses (initialState Mode.fullyAssociative) [(Op.LOAD, 0x10)]).2 0x20
      (by decide) (by decide) (by decide)).2.1 1 (by decide)⟩

/-- Witness for C5: addresses `0x00` and `0x80` share index 0 with tags 0 and
1; the second access evicts the first. -/
theorem directMapped_victim_is_indexed_line_witness :
    (initialState Mode.direct).mode = Mode.direct ∧
    getIndex 0x00 = getIndex 0x80 ∧
    getTag Mode.direct 0x00 ≠ getTag Mode.direct 0x80 ∧
    (processMemoryAccess (processMemoryAccess (initialState Mode.direct)
        Op.LOAD 0x00).2 Op.LOAD 0x80).1.replacedTag
      = some (getTag Mode.direct 0x00) :=
  ⟨by decide, by decide, by decide,
   (directMapped_victim_is_indexed_line (initialState Mode.direct) 0x00 0x80
     Op.LOAD Op.LOAD (by decide) (by decide) (by decide) (by decide)).2.2.2.1⟩

/-- Witness for C6: a missing `LOAD 0x10` on a fresh fully-associative cache
fills its victim line with tag, payload descriptor and current step. -/
theorem fill_and_update_frame_witness :
    (initialState Mode.fullyAssociative).cache.length = CACHE_SIZE ∧
    (initialState Mode.fullyAssociative).nextReplacement < CACHE_SIZE ∧
    searchCache (initialState Mode.fullyAssociative)
      (getTag (initialState Mode.fullyAssociative).mode 16) 16 = none ∧
    lineAt (processMemoryAccess (initialState Mode.fullyAssociative)
        Op.LOAD 16).2.cache
      (processMemoryAccess (initialState Mode.fullyAssociative) Op.LOAD 16).1.lineIndex
      = { valid := true,
          tag := some (getTag (initialState Mode.fullyAssociative).mode 16),
          data := some ("Block@0x" ++ hexUpper 16),
          lastAccess := some ((initialState Mode.fullyAssociative).step + 1) } :=
  ⟨by decide, by decide, by decide,
   (fill_and_update_frame (initialState Mode.fullyAssociative) Op.LOAD 16
     (by decide) (Inv_initialState Mode.fullyAssociative).2.2.1 (by decide)).1
     (by decide)⟩

/-- Witness for C7 (amended): the fresh `Int`-model state processes the
negative address `-16`, incrementing the step counter. -/
theorem negative_address_processed_without_rejection_witness :
    initialStateI.cache.length = CACHE_SIZE ∧
    initialStateI.nextReplacement < CACHE_SIZE ∧
    (processMemoryAccessFullyI initialStateI Op.LOAD (-16)).2.step
      = initialStateI.step + 1 :=
  ⟨by decide, by decide,
   (negative_address_processed_without_rejection initialStateI Op.LOAD (-16)
     (by decide) (by decide)).1⟩

/-- Witness for C10: after two accesses on a fresh fully-associative cache,
the two valid lines of the (single) scope hold distinct tags. -/
theorem no_duplicate_tags_within_scope_witness :
    (lineAt (processMemoryAccess (processMemoryAccess
        (initialState Mode.fullyAssociative) Op.LOAD 0x10).2
        Op.LOAD 0x20).2.cache 0).tag
      ≠ (lineAt (processMemoryAccess (processMemoryAccess
        (initialState Mode.fullyAssociative) Op.LOAD 0x10).2
        Op.LOAD 0x20).2.cache 1).tag :=
  no_duplicate_tags_within_scope
    (processMemoryAccess (processMemoryAccess
      (initialState Mode.fullyAssociative) Op.LOAD 0x10).2 Op.LOAD 0x20).2
    (Reachable.step (processMemoryAccess
      (initialState Mode.fullyAssociative) Op.LOAD 0x10).2 Op.LOAD 0x20
      (Reachable.step (initialState Mode.fullyAssociative) Op.LOAD 0x10
        (Reachable.init Mode.fullyAssociative)))
    0 1 (by decide) (by decide) (by decide) (by decide) (by decide) (by decide)

end CacheViz
